import Mathlib

/-!
Verification of the telemetry backend's realtime broadcast manager,
aggregation cache, ingestion pipeline and value objects.

The Python structures are embedded shallowly:
* a Python `dict` becomes an association list (`Dict`) whose keys are
  unique in every reachable state (Python dicts cannot hold a key twice);
  `Dict.find?`, `Dict.insert` and `Dict.erase` mirror `d[k]`/`d.get(k)`,
  `d[k] = v` and `del d[k]` including insertion-order behaviour;
* a Python `set` becomes a duplicate-free list with `sinsert`
  (`s.add`) and `sremove` (`s.discard`);
* `datetime` values become integer epoch seconds, `timedelta` values
  integer second counts;
* float sensor values become rationals (every literal the code and its
  tests compare against is a decimal, represented exactly).
-/

namespace Telemetry

/-- Association list standing for a Python `dict`. -/
abbrev Dict (α β : Type) := List (α × β)

namespace Dict

/-- `d.get(k)` / `k in d`: first binding of the key, if any. -/
def find? {α β : Type} [DecidableEq α] : Dict α β → α → Option β
  | [], _ => none
  | (k, v) :: rest, a => if k = a then some v else find? rest a

/-- `d[k] = v`: replace the binding in place if the key is present,
otherwise append it (Python dicts preserve insertion order). -/
def insert {α β : Type} [DecidableEq α] : Dict α β → α → β → Dict α β
  | [], a, b => [(a, b)]
  | (k, v) :: rest, a, b =>
      if k = a then (a, b) :: rest else (k, v) :: insert rest a b

/-- `del d[k]` / `d.pop(k, default)`: drop the first binding of the key. -/
def erase {α β : Type} [DecidableEq α] : Dict α β → α → Dict α β
  | [], _ => []
  | (k, v) :: rest, a => if k = a then rest else (k, v) :: erase rest a

/-- The keys of the dictionary are pairwise distinct (always true of a
Python dict; an invariant of every reachable state of the model). -/
def KeysNodup {α β : Type} (l : Dict α β) : Prop := (l.map Prod.fst).Nodup

instance {α β : Type} [DecidableEq α] (l : Dict α β) :
    Decidable (KeysNodup l) := by
  unfold KeysNodup; infer_instance

end Dict

/-- `s.add(x)` on a Python set, on the duplicate-free list model. -/
def sinsert {α : Type} [DecidableEq α] (x : α) (s : List α) : List α :=
  if x ∈ s then s else x :: s

/-- `s.discard(x)` on a Python set: every occurrence is removed. -/
def sremove {α : Type} [DecidableEq α] (x : α) (s : List α) : List α :=
  s.filter (fun y => y ≠ x)

/-! ## WebSocketManager
(`src/telemetry_backend/infrastructure/websocket/manager.py`)

A `WebSocket` handle is opaque to the manager; it only needs equality,
so connections are modelled by identifiers. -/

/-- A live WebSocket connection handle. -/
abbrev Conn := Nat

/-- A subscription topic: a device id string (the wildcard topic used by
the `/stream/all` route is the string `"__all__"`). -/
abbrev Topic := String

/-- State of `WebSocketManager`: the two coupled mappings set up in
`__init__` (`_device_subscribers` and `_connection_subscriptions`). -/
structure Manager where
  device_subscribers : Dict Topic (List Conn)
  connection_subscriptions : Dict Conn (List Topic)
deriving DecidableEq

/-- The freshly initialised manager (`__init__`). -/
def Manager.empty : Manager := ⟨[], []⟩

/-- `WebSocketManager.connect`: admit a connection with an empty
subscription set (the `accept`/logging I/O carries no manager state). -/
def connect (m : Manager) (ws : Conn) : Manager :=
  { m with connection_subscriptions :=
      Dict.insert m.connection_subscriptions ws [] }

/-- `WebSocketManager.subscribe`: add the connection to the topic's
subscriber set (creating it if absent) and, only if the connection is
registered, record the topic in the connection's own set. -/
def subscribe (m : Manager) (ws : Conn) (device_id : Topic) : Manager :=
  let cur := (Dict.find? m.device_subscribers device_id).getD []
  let devSubs := Dict.insert m.device_subscribers device_id (sinsert ws cur)
  let connSubs :=
    match Dict.find? m.connection_subscriptions ws with
    | some topics =>
        Dict.insert m.connection_subscriptions ws (sinsert device_id topics)
    | none => m.connection_subscriptions
  ⟨devSubs, connSubs⟩

/-- The `discard`-then-purge step shared by `unsubscribe` (manager.py
lines 125–128) and `disconnect` (lines 80–84): remove the connection
from the topic's subscriber set and delete the topic if the set becomes
empty. -/
def removeSubscriber (devSubs : Dict Topic (List Conn)) (device_id : Topic)
    (ws : Conn) : Dict Topic (List Conn) :=
  match Dict.find? devSubs device_id with
  | some subs =>
      let subs' := sremove ws subs
      if subs' = [] then Dict.erase devSubs device_id
      else Dict.insert devSubs device_id subs'
  | none => devSubs

/-- `WebSocketManager.unsubscribe`. -/
def unsubscribe (m : Manager) (ws : Conn) (device_id : Topic) : Manager :=
  let devSubs := removeSubscriber m.device_subscribers device_id ws
  let connSubs :=
    match Dict.find? m.connection_subscriptions ws with
    | some topics =>
        Dict.insert m.connection_subscriptions ws (sremove device_id topics)
    | none => m.connection_subscriptions
  ⟨devSubs, connSubs⟩

/-- `WebSocketManager.disconnect`: pop the connection's topic set
(defaulting to the empty set) and remove the connection from each of
those topics' subscriber sets, purging topics left empty. -/
def disconnect (m : Manager) (ws : Conn) : Manager :=
  let subscribed_devices := (Dict.find? m.connection_subscriptions ws).getD []
  let connSubs := Dict.erase m.connection_subscriptions ws
  let devSubs := subscribed_devices.foldl
    (fun acc d => removeSubscriber acc d ws) m.device_subscribers
  ⟨devSubs, connSubs⟩

/-- Outcome of one `send_to_subscriber` task in `broadcast_to_device`:
the payload was sent (`delivered`), the connection was not in the
`CONNECTED` state so the send was skipped silently (`skipped`), or
`send_json` raised and the task recorded the connection as
`disconnected` (`failed`). -/
inductive SendResult
  | delivered
  | skipped
  | failed
deriving DecidableEq

/-- `WebSocketManager.broadcast_to_device`: snapshot the topic's
subscriber set, attempt one independent send per subscriber (each
exception being consumed by its own task — the function itself always
returns normally), then run `disconnect` on every connection whose send
failed. Returns the new state, the connections actually sent the
payload, and the failed connections. -/
def broadcast_to_device (m : Manager) (device_id : Topic)
    (send : Conn → SendResult) : Manager × List Conn × List Conn :=
  let subscribers := (Dict.find? m.device_subscribers device_id).getD []
  let delivered :=
    subscribers.filter (fun ws => decide (send ws = SendResult.delivered))
  let disconnected :=
    subscribers.filter (fun ws => decide (send ws = SendResult.failed))
  let m' := disconnected.foldl (fun acc ws => disconnect acc ws) m
  (m', delivered, disconnected)

/-- The subscriber set of a topic (`_device_subscribers.get(t, set())`). -/
def subsOf (m : Manager) (t : Topic) : List Conn :=
  (Dict.find? m.device_subscribers t).getD []

/-- The topic set of a connection
(`_connection_subscriptions.get(ws, set())`). -/
def topicsOf (m : Manager) (ws : Conn) : List Topic :=
  (Dict.find? m.connection_subscriptions ws).getD []

/-- Mutual consistency of the two mappings: a connection is in a topic's
subscriber set iff the topic is in the connection's topic set. -/
def Consistent (m : Manager) : Prop :=
  ∀ t ws, ws ∈ subsOf m t ↔ t ∈ topicsOf m ws

/-- No topic is ever mapped to an empty subscriber set. -/
def NoEmptyTopics (m : Manager) : Prop :=
  ∀ t s, Dict.find? m.device_subscribers t = some s → s ≠ []

/-- The subscription-index invariant (unbounded form). -/
def InvP (m : Manager) : Prop :=
  Dict.KeysNodup m.device_subscribers ∧
  Dict.KeysNodup m.connection_subscriptions ∧
  Consistent m ∧ NoEmptyTopics m

/-- The subscription-index invariant, phrased over the entries actually
stored so that it is decidable on concrete states. Equivalent to `InvP`
(`inv_iff_invP`). -/
def Inv (m : Manager) : Prop :=
  Dict.KeysNodup m.device_subscribers ∧
  Dict.KeysNodup m.connection_subscriptions ∧
  (∀ p ∈ m.device_subscribers, ∀ ws ∈ p.2, p.1 ∈ topicsOf m ws) ∧
  (∀ q ∈ m.connection_subscriptions, ∀ t ∈ q.2, q.1 ∈ subsOf m t) ∧
  (∀ p ∈ m.device_subscribers, p.2 ≠ [])

instance (m : Manager) : Decidable (Inv m) := by
  unfold Inv topicsOf subsOf
  infer_instance

/-- Abstract effect of `removeSubscriber` on the binding of the touched
topic. -/
def removeOpt (ws : Conn) : Option (List Conn) → Option (List Conn)
  | none => none
  | some s => if sremove ws s = [] then none else some (sremove ws s)

/-- One call in a Subscribe/Unsubscribe interleaving against the
manager. -/
inductive WSOp
  | sub (ws : Conn) (device_id : Topic)
  | unsub (ws : Conn) (device_id : Topic)

/-- Execute one call. -/
def applyOp (m : Manager) : WSOp → Manager
  | .sub ws d => subscribe m ws d
  | .unsub ws d => unsubscribe m ws d

/-- Execute a sequence of calls in order. -/
def run (m : Manager) (ops : List WSOp) : Manager :=
  ops.foldl applyOp m

/-- The caller contract of one call: `subscribe` is invoked only for
connections registered (by `connect`) at the moment of the call;
`unsubscribe` may always be called. -/
def validOp (m : Manager) : WSOp → Bool
  | .sub ws _ => (Dict.find? m.connection_subscriptions ws).isSome
  | .unsub _ _ => true

/-- Every call of the sequence satisfies `validOp` in the state in which
it executes. -/
def validSeq : Manager → List WSOp → Bool
  | _, [] => true
  | m, op :: rest => validOp m op && validSeq (applyOp m op) rest

/-- The connection has been fully unregistered: it is absent from the
connection index and from every topic's subscriber set. -/
def Gone (m : Manager) (ws : Conn) : Prop :=
  Dict.find? m.connection_subscriptions ws = none ∧ ∀ t, ws ∉ subsOf m t

/-! ## TimeRange (`app/domain/value_objects/time_range.py`)

`datetime` values are modelled as integer epoch seconds. -/

/-- Seconds per duration unit, for the `[hdmw]` group of the pattern
`^(\d+)([hdmw])$` ('m' is minutes). -/
def unitSeconds : Char → Option Nat
  | 'm' => some 60
  | 'h' => some 3600
  | 'd' => some 86400
  | 'w' => some 604800
  | _ => none

/-- Value of the digit group (`int(match.group(1))`). -/
def digitsVal (ds : List Char) : Nat :=
  ds.foldl (fun a c => a * 10 + (c.toNat - 48)) 0

/-- The duration parsing of `TimeRange.last`: match
`^(\d+)([hdmw])$` against the lower-cased string (per-character
lowering; digits are ASCII digits), reject a zero value, and convert to
seconds. `none` is the `ValueError` path. -/
def parseDuration (s : String) : Option Nat :=
  match (s.toList.map Char.toLower).reverse with
  | [] => none
  | u :: revDigits =>
      if revDigits.isEmpty || !(revDigits.all Char.isDigit) then none
      else
        match unitSeconds u with
        | none => none
        | some k =>
            if digitsVal revDigits.reverse = 0 then none
            else some (digitsVal revDigits.reverse * k)

/-- `TimeRange` value object. The source field `end` is a Lean keyword
and is called `stop` here. -/
structure TimeRange where
  start : Int
  stop : Int
deriving DecidableEq

/-- `TimeRange.last(duration_str, now)`: parse the duration and build
`TimeRange(now - delta, now)`; `__post_init__` rejects `start >= end`.
`none` is the `ValueError` path. -/
def TimeRange.last (duration_str : String) (now : Int) : Option TimeRange :=
  match parseDuration duration_str with
  | none => none
  | some secs =>
      if now - (secs : Int) ≥ now then none
      else some ⟨now - (secs : Int), now⟩

/-! ## SensorMetrics (`app/domain/value_objects/metrics.py`)

Float sensor values are modelled as rationals. -/

/-- The optional metric fields handed to `SensorMetrics.from_dict`. -/
structure SensorMetricsData where
  temperature : Option ℚ
  humidity : Option ℚ
  voltage : Option ℚ
deriving DecidableEq

/-- One range check of `SensorMetrics.__post_init__`: absent values
pass, present values must satisfy `lo <= x <= hi`. -/
def metricInRange (lo hi : ℚ) : Option ℚ → Bool
  | none => true
  | some x => decide (lo ≤ x) && decide (x ≤ hi)

/-- `SensorMetrics.__post_init__` succeeds: temperature in -40..85,
humidity in 0..100, voltage in 0..24. `false` is the `ValueError`
path. -/
def sensorMetricsValid (m : SensorMetricsData) : Bool :=
  metricInRange (-40) 85 m.temperature &&
  metricInRange 0 100 m.humidity &&
  metricInRange 0 24 m.voltage

/-- `SensorMetrics.has_any_metric`. -/
def has_any_metric (m : SensorMetricsData) : Bool :=
  m.temperature.isSome || m.humidity.isSome || m.voltage.isSome

/-! ## AggregationService cache (`app/services/aggregation_service.py`)

`self._cache : dict[str, tuple[datetime, Any]]`, polymorphic in the
cached value. -/

/-- The in-memory cache: key to (cached-at timestamp, value). -/
abbrev Cache (α : Type) := Dict String (Int × α)

/-- `AggregationService._get_cached`: absent key is a miss; an entry
older than the TTL is deleted and reported as a miss; otherwise the
value is returned. Returns the (possibly changed) cache alongside. -/
def get_cached {α : Type} (cache : Cache α) (ttl : Int) (now : Int)
    (key : String) : Option α × Cache α :=
  match Dict.find? cache key with
  | none => (none, cache)
  | some (cached_at, value) =>
      if now - cached_at > ttl then (none, Dict.erase cache key)
      else (some value, cache)

/-- `AggregationService._set_cached`. -/
def set_cached {α : Type} (cache : Cache α) (now : Int) (key : String)
    (value : α) : Cache α :=
  Dict.insert cache key (now, value)

/-- The cache key `f"stats:{device_id}:{range_str}"`. -/
def statsKey (device_id range_str : String) : String :=
  "stats:" ++ device_id ++ ":" ++ range_str

/-- Result of `AggregationService.get_device_stats`: the returned value
with the final cache state and whether the store read ran, the
`ValueError` raised by `TimeRange.last`, or a store-read failure
propagating out. -/
inductive GDSOutcome (α : Type)
  | ok (value : α) (cache : Cache α) (computed : Bool)
  | invalidRange
  | computeFailed (cache : Cache α)
deriving DecidableEq

/-- `AggregationService.get_device_stats`: parse the range, consult the
cache, and on a miss run the store read `get_stats` (given here as
`none` when that read raises) and cache its result. -/
def get_device_stats {α : Type} (cache : Cache α) (ttl : Int) (now : Int)
    (device_id : String) (range_str : String) (get_stats : Option α) :
    GDSOutcome α :=
  match TimeRange.last range_str now with
  | none => .invalidRange
  | some _ =>
      let cache_key := statsKey device_id range_str
      match get_cached cache ttl now cache_key with
      | (some v, c1) => .ok v c1 false
      | (none, c1) =>
          match get_stats with
          | none => .computeFailed c1
          | some stats => .ok stats (set_cached c1 now cache_key stats) true

/-- `needle` starts `hay` (helper for the substring test below). -/
def leadsWith : List Char → List Char → Bool
  | [], _ => true
  | _ :: _, [] => false
  | a :: as, b :: bs => a == b && leadsWith as bs

/-- `needle` occurs contiguously in `hay`. -/
def occursIn (needle : List Char) : List Char → Bool
  | [] => leadsWith needle []
  | b :: bs => leadsWith needle (b :: bs) || occursIn needle bs

/-- The Python substring test `needle in hay` on strings. -/
def strContains (hay needle : String) : Bool :=
  occursIn needle.toList hay.toList

/-- `AggregationService.clear_cache`: with a device id, delete every key
`k` with `device_id in k` (a substring test); without, clear all. -/
def clear_cache {α : Type} (cache : Cache α) (device_id : Option String) :
    Cache α :=
  match device_id with
  | some d => cache.filter (fun kv => !(strContains kv.1 d))
  | none => []

/-! ## IngestionService (`app/services/ingestion_service.py`)

The device store, reading store and WebSocket manager are the service's
collaborators; the persisted/broadcast side effects are recorded as an
effect trace. -/

/-- The slice of a stored device the service reads. -/
structure Device where
  is_active : Bool
deriving DecidableEq

/-- The collaborators of `IngestionService.ingest`:
`settings.device_api_keys_set`, the `device_repo.get_by_id` view, and
whether a `websocket_manager` was injected. -/
structure IngestEnv where
  device_api_keys : List String
  devices : Dict String Device
  has_ws_manager : Bool
deriving DecidableEq

/-- The `Reading` entity created by a successful ingestion. -/
structure Reading where
  device_id : String
  metrics : SensorMetricsData
  timestamp : Int
deriving DecidableEq

/-- One externally visible side effect of `ingest`:
`reading_repo.create`, `device_repo.update_last_seen`, or
`ws_manager.broadcast_to_device` on a topic. -/
inductive Effect
  | storeWrite (device_id : String) (metrics : SensorMetricsData)
      (timestamp : Int)
  | updateLastSeen (device_id : String) (timestamp : Int)
  | broadcast (topic : Topic)
deriving DecidableEq

/-- Result of `IngestionService.ingest`: the created reading, or one of
the typed errors raised by the validation chain. -/
inductive IngestResult
  | ok (r : Reading)
  | authenticationError
  | deviceNotFound
  | deviceInactive
  | invalidPayload
deriving DecidableEq

/-- `IngestionService.ingest`, returning the result together with the
ordered trace of store writes, last-seen updates and broadcasts it
performed. `now` is the server-side UTC timestamp taken at step 4. -/
def ingest (env : IngestEnv) (device_id : String)
    (metrics_data : SensorMetricsData) (api_key : Option String)
    (now : Int) : IngestResult × List Effect :=
  match api_key with
  | none => (.authenticationError, [])
  | some key =>
      if key = "" then (.authenticationError, [])
      else if key ∉ env.device_api_keys then (.authenticationError, [])
      else
        match Dict.find? env.devices device_id with
        | none => (.deviceNotFound, [])
        | some device =>
            if !device.is_active then (.deviceInactive, [])
            else if !sensorMetricsValid metrics_data then (.invalidPayload, [])
            else if !has_any_metric metrics_data then (.invalidPayload, [])
            else
              (.ok ⟨device_id, metrics_data, now⟩,
                [Effect.storeWrite device_id metrics_data now,
                 Effect.updateLastSeen device_id now] ++
                (if env.has_ws_manager then [Effect.broadcast device_id]
                 else []))

namespace Dict

theorem find?_eq_none_of_not_mem_keys {α β : Type} [DecidableEq α]
    (l : Dict α β) (a : α) (h : a ∉ l.map Prod.fst) : find? l a = none := by
  induction l with
  | nil => rfl
  | cons kv rest ih =>
      obtain ⟨k, v⟩ := kv
      simp only [List.map_cons, List.mem_cons] at h
      push_neg at h
      rw [find?, if_neg (fun hh => h.1 hh.symm)]
      exact ih h.2

theorem find?_insert {α β : Type} [DecidableEq α]
    (l : Dict α β) (a : α) (b : β) (c : α) :
    find? (insert l a b) c = if a = c then some b else find? l c := by
  induction l with
  | nil => simp [insert, find?]
  | cons kv rest ih =>
      obtain ⟨k, v⟩ := kv
      by_cases hk : k = a
      · subst hk
        by_cases hc : k = c
        · subst hc
          rw [insert, if_pos rfl, find?, if_pos rfl, if_pos rfl]
        · rw [insert, if_pos rfl, find?, if_neg hc, if_neg hc, find?,
            if_neg hc]
      · rw [insert, if_neg hk, find?]
        by_cases hc : k = c
        · subst hc
          have hac : ¬ a = k := fun h => hk h.symm
          rw [if_pos rfl, find?, if_pos rfl, if_neg hac]
        · rw [if_neg hc, find?, if_neg hc, ih]

theorem find?_erase_ne {α β : Type} [DecidableEq α]
    (l : Dict α β) (a c : α) (h : a ≠ c) :
    find? (erase l a) c = find? l c := by
  induction l with
  | nil => rfl
  | cons kv rest ih =>
      obtain ⟨k, v⟩ := kv
      by_cases hk : k = a
      · subst hk
        rw [erase, if_pos rfl, find?, if_neg h]
      · rw [erase, if_neg hk, find?, find?]
        by_cases hc : k = c
        · rw [if_pos hc, if_pos hc]
        · rw [if_neg hc, if_neg hc, ih]

theorem find?_erase_self {α β : Type} [DecidableEq α]
    (l : Dict α β) (a : α) (hnd : KeysNodup l) :
    find? (erase l a) a = none := by
  induction l with
  | nil => rfl
  | cons kv rest ih =>
      obtain ⟨k, v⟩ := kv
      simp only [KeysNodup, List.map_cons, List.nodup_cons] at hnd
      by_cases hk : k = a
      · subst hk
        rw [erase, if_pos rfl]
        exact find?_eq_none_of_not_mem_keys rest k hnd.1
      · rw [erase, if_neg hk, find?, if_neg hk]
        exact ih hnd.2

theorem find?_mem {α β : Type} [DecidableEq α]
    {l : Dict α β} {a : α} {b : β} (h : find? l a = some b) : (a, b) ∈ l := by
  induction l with
  | nil => simp [find?] at h
  | cons kv rest ih =>
      obtain ⟨k, v⟩ := kv
      by_cases hk : k = a
      · subst hk
        rw [find?, if_pos rfl] at h
        obtain rfl : v = b := Option.some.inj h
        exact List.mem_cons_self _ _
      · rw [find?, if_neg hk] at h
        exact List.mem_cons_of_mem _ (ih h)

theorem mem_find? {α β : Type} [DecidableEq α]
    {l : Dict α β} {a : α} {b : β} (hnd : KeysNodup l) (h : (a, b) ∈ l) :
    find? l a = some b := by
  induction l with
  | nil => simp at h
  | cons kv rest ih =>
      obtain ⟨k, v⟩ := kv
      simp only [KeysNodup, List.map_cons, List.nodup_cons] at hnd
      rcases List.mem_cons.mp h with h1 | h2
      · have hk : a = k := congrArg Prod.fst h1
        have hv : b = v := congrArg Prod.snd h1
        subst hk; subst hv
        rw [find?, if_pos rfl]
      · have hk : ¬ k = a := by
          intro hka; subst hka
          exact hnd.1 (List.mem_map.mpr ⟨(k, b), h2, rfl⟩)
        rw [find?, if_neg hk]
        exact ih hnd.2 h2

theorem erase_of_find?_eq_none {α β : Type} [DecidableEq α]
    (l : Dict α β) (a : α) (h : find? l a = none) : erase l a = l := by
  induction l with
  | nil => rfl
  | cons kv rest ih =>
      obtain ⟨k, v⟩ := kv
      rw [find?] at h
      by_cases hk : k = a
      · rw [if_pos hk] at h; exact absurd h (by simp)
      · rw [if_neg hk] at h
        rw [erase, if_neg hk, ih h]

theorem keys_insert {α β : Type} [DecidableEq α]
    (l : Dict α β) (a : α) (b : β) :
    (insert l a b).map Prod.fst =
      if a ∈ l.map Prod.fst then l.map Prod.fst
      else l.map Prod.fst ++ [a] := by
  induction l with
  | nil => simp [insert]
  | cons kv rest ih =>
      obtain ⟨k, v⟩ := kv
      by_cases hk : k = a
      · subst hk
        simp [insert]
      · have hak : ¬ a = k := fun h => hk h.symm
        simp only [insert, if_neg hk, List.map_cons, List.mem_cons, ih]
        by_cases hmem : a ∈ rest.map Prod.fst
        · simp [hmem, hak]
        · simp [hmem, hak]

theorem keysNodup_insert {α β : Type} [DecidableEq α]
    (l : Dict α β) (a : α) (b : β) (hnd : KeysNodup l) :
    KeysNodup (insert l a b) := by
  unfold KeysNodup at hnd ⊢
  rw [keys_insert]
  by_cases hmem : a ∈ l.map Prod.fst
  · rwa [if_pos hmem]
  · rw [if_neg hmem]
    exact List.Nodup.append hnd (List.nodup_singleton a)
      (by simpa [List.disjoint_singleton] using hmem)

theorem keys_erase_sublist {α β : Type} [DecidableEq α]
    (l : Dict α β) (a : α) :
    ((erase l a).map Prod.fst).Sublist (l.map Prod.fst) := by
  induction l with
  | nil => simp [erase]
  | cons kv rest ih =>
      obtain ⟨k, v⟩ := kv
      by_cases hk : k = a
      · rw [erase, if_pos hk]
        simp only [List.map_cons]
        exact List.sublist_cons_self _ _
      · rw [erase, if_neg hk]
        simp only [List.map_cons]
        exact ih.cons₂ _

theorem keysNodup_erase {α β : Type} [DecidableEq α]
    (l : Dict α β) (a : α) (hnd : KeysNodup l) : KeysNodup (erase l a) :=
  List.Nodup.sublist (keys_erase_sublist l a) hnd

end Dict

theorem mem_sinsert {α : Type} [DecidableEq α] (x y : α) (s : List α) :
    y ∈ sinsert x s ↔ y = x ∨ y ∈ s := by
  unfold sinsert
  by_cases h : x ∈ s
  · simp only [if_pos h]
    constructor
    · exact Or.inr
    · rintro (rfl | hy)
      · exact h
      · exact hy
  · simp [if_neg h]

theorem mem_sremove {α : Type} [DecidableEq α] (x y : α) (s : List α) :
    y ∈ sremove x s ↔ y ∈ s ∧ y ≠ x := by
  unfold sremove
  simp [List.mem_filter]

theorem sinsert_ne_nil {α : Type} [DecidableEq α] (x : α) (s : List α) :
    sinsert x s ≠ [] := by
  unfold sinsert
  by_cases h : x ∈ s
  · simp only [if_pos h]
    intro hnil; subst hnil; simp at h
  · simp [if_neg h]

theorem sremove_idem {α : Type} [DecidableEq α] (x : α) (s : List α) :
    sremove x (sremove x s) = sremove x s := by
  unfold sremove
  induction s with
  | nil => rfl
  | cons a rest ih =>
      by_cases h : a = x
      · simp [List.filter_cons, h, ih]
      · simp [List.filter_cons, h, ih]

theorem removeOpt_idem (ws : Conn) (o : Option (List Conn)) :
    removeOpt ws (removeOpt ws o) = removeOpt ws o := by
  cases o with
  | none => rfl
  | some s =>
      by_cases h : sremove ws s = []
      · simp [removeOpt, h]
      · simp [removeOpt, h, sremove_idem]

theorem not_mem_removeOpt (ws : Conn) (o : Option (List Conn)) :
    ws ∉ (removeOpt ws o).getD [] := by
  cases o with
  | none => simp [removeOpt]
  | some s =>
      simp only [removeOpt]
      by_cases h : sremove ws s = []
      · simp [if_pos h]
      · rw [if_neg h]
        intro hmem
        exact ((mem_sremove ws ws s).mp hmem).2 rfl

theorem mem_removeOpt (w ws : Conn) (o : Option (List Conn)) :
    w ∈ (removeOpt ws o).getD [] ↔ w ∈ o.getD [] ∧ w ≠ ws := by
  cases o with
  | none => simp [removeOpt]
  | some s =>
      simp only [removeOpt, Option.getD_some]
      by_cases h : sremove ws s = []
      · rw [if_pos h]
        simp only [Option.getD_none, List.not_mem_nil, false_iff]
        intro hc
        have := (mem_sremove ws w s).mpr ⟨hc.1, hc.2⟩
        rw [h] at this
        exact List.not_mem_nil w this
      · rw [if_neg h, Option.getD_some]
        exact mem_sremove ws w s

theorem find?_removeSubscriber (devSubs : Dict Topic (List Conn))
    (d : Topic) (ws : Conn) (hnd : Dict.KeysNodup devSubs) (t : Topic) :
    Dict.find? (removeSubscriber devSubs d ws) t =
      if d = t then removeOpt ws (Dict.find? devSubs d)
      else Dict.find? devSubs t := by
  unfold removeSubscriber
  cases hfd : Dict.find? devSubs d with
  | none =>
      by_cases hdt : d = t
      · subst hdt
        rw [if_pos rfl, hfd]; rfl
      · rw [if_neg hdt]
  | some subs =>
      simp only
      by_cases hempty : sremove ws subs = []
      · rw [if_pos hempty]
        by_cases hdt : d = t
        · subst hdt
          rw [if_pos rfl, Dict.find?_erase_self _ _ hnd]
          simp [removeOpt, hempty]
        · rw [if_neg hdt, Dict.find?_erase_ne _ _ _ hdt]
      · rw [if_neg hempty, Dict.find?_insert]
        by_cases hdt : d = t
        · subst hdt
          rw [if_pos rfl, if_pos rfl]
          simp [removeOpt, hempty]
        · rw [if_neg hdt, if_neg hdt]

theorem keysNodup_removeSubscriber (devSubs : Dict Topic (List Conn))
    (d : Topic) (ws : Conn) (hnd : Dict.KeysNodup devSubs) :
    Dict.KeysNodup (removeSubscriber devSubs d ws) := by
  unfold removeSubscriber
  cases Dict.find? devSubs d with
  | none => exact hnd
  | some subs =>
      simp only
      by_cases hempty : sremove ws subs = []
      · rw [if_pos hempty]
        exact Dict.keysNodup_erase _ _ hnd
      · rw [if_neg hempty]
        exact Dict.keysNodup_insert _ _ _ hnd

theorem keysNodup_fold_removeSubscriber (ds : List Topic)
    (devSubs : Dict Topic (List Conn)) (ws : Conn)
    (hnd : Dict.KeysNodup devSubs) :
    Dict.KeysNodup
      (ds.foldl (fun acc d => removeSubscriber acc d ws) devSubs) := by
  induction ds generalizing devSubs with
  | nil => exact hnd
  | cons d rest ih =>
      exact ih _ (keysNodup_removeSubscriber devSubs d ws hnd)

theorem find?_fold_removeSubscriber (ds : List Topic)
    (devSubs : Dict Topic (List Conn)) (ws : Conn)
    (hnd : Dict.KeysNodup devSubs) (t : Topic) :
    Dict.find? (ds.foldl (fun acc d => removeSubscriber acc d ws) devSubs) t =
      if t ∈ ds then removeOpt ws (Dict.find? devSubs t)
      else Dict.find? devSubs t := by
  induction ds generalizing devSubs with
  | nil => simp
  | cons d rest ih =>
      simp only [List.foldl_cons]
      rw [ih _ (keysNodup_removeSubscriber devSubs d ws hnd)]
      rw [find?_removeSubscriber devSubs d ws hnd t]
      by_cases hmem : t ∈ rest
      · rw [if_pos hmem, if_pos (List.mem_cons_of_mem d hmem)]
        by_cases hdt : d = t
        · subst hdt
          rw [if_pos rfl, removeOpt_idem]
        · rw [if_neg hdt]
      · rw [if_neg hmem]
        by_cases hdt : d = t
        · subst hdt
          rw [if_pos rfl, if_pos (List.mem_cons_self d rest)]
        · rw [if_neg hdt, if_neg (by
            intro hc
            rcases List.mem_cons.mp hc with hc | hc
            · exact hdt hc.symm
            · exact hmem hc)]

theorem removeOpt_some {ws : Conn} {o : Option (List Conn)} {s : List Conn}
    (h : removeOpt ws o = some s) : s ≠ [] := by
  cases o with
  | none => simp [removeOpt] at h
  | some s0 =>
      by_cases he : sremove ws s0 = []
      · simp [removeOpt, he] at h
      · simp only [removeOpt, if_neg he, Option.some.injEq] at h
        subst h; exact he

theorem find?_dev_subscribe (m : Manager) (ws : Conn) (d t : Topic) :
    Dict.find? (subscribe m ws d).device_subscribers t =
      if d = t then some (sinsert ws (subsOf m d))
      else Dict.find? m.device_subscribers t := by
  simp only [subscribe, subsOf]
  exact Dict.find?_insert _ _ _ _

theorem find?_conn_subscribe_reg (m : Manager) (ws : Conn) (d : Topic)
    {ts : List Topic} (h : Dict.find? m.connection_subscriptions ws = some ts)
    (w : Conn) :
    Dict.find? (subscribe m ws d).connection_subscriptions w =
      if ws = w then some (sinsert d ts)
      else Dict.find? m.connection_subscriptions w := by
  simp only [subscribe, h]
  exact Dict.find?_insert _ _ _ _

theorem conn_subscribe_unreg (m : Manager) (ws : Conn) (d : Topic)
    (h : Dict.find? m.connection_subscriptions ws = none) :
    (subscribe m ws d).connection_subscriptions =
      m.connection_subscriptions := by
  simp [subscribe, h]

theorem find?_dev_unsubscribe (m : Manager) (ws : Conn) (d : Topic)
    (hnd : Dict.KeysNodup m.device_subscribers) (t : Topic) :
    Dict.find? (unsubscribe m ws d).device_subscribers t =
      if d = t then removeOpt ws (Dict.find? m.device_subscribers d)
      else Dict.find? m.device_subscribers t := by
  simp only [unsubscribe]
  exact find?_removeSubscriber _ _ _ hnd t

theorem find?_conn_unsubscribe_reg (m : Manager) (ws : Conn) (d : Topic)
    {ts : List Topic} (h : Dict.find? m.connection_subscriptions ws = some ts)
    (w : Conn) :
    Dict.find? (unsubscribe m ws d).connection_subscriptions w =
      if ws = w then some (sremove d ts)
      else Dict.find? m.connection_subscriptions w := by
  simp only [unsubscribe, h]
  exact Dict.find?_insert _ _ _ _

theorem conn_unsubscribe_unreg (m : Manager) (ws : Conn) (d : Topic)
    (h : Dict.find? m.connection_subscriptions ws = none) :
    (unsubscribe m ws d).connection_subscriptions =
      m.connection_subscriptions := by
  simp [unsubscribe, h]

theorem find?_dev_disconnect (m : Manager) (ws : Conn)
    (hnd : Dict.KeysNodup m.device_subscribers) (t : Topic) :
    Dict.find? (disconnect m ws).device_subscribers t =
      if t ∈ topicsOf m ws then removeOpt ws (Dict.find? m.device_subscribers t)
      else Dict.find? m.device_subscribers t := by
  simp only [disconnect, topicsOf]
  exact find?_fold_removeSubscriber _ _ _ hnd t

theorem find?_conn_disconnect (m : Manager) (ws : Conn)
    (hnd : Dict.KeysNodup m.connection_subscriptions) (w : Conn) :
    Dict.find? (disconnect m ws).connection_subscriptions w =
      if ws = w then none else Dict.find? m.connection_subscriptions w := by
  simp only [disconnect]
  by_cases hw : ws = w
  · subst hw
    rw [if_pos rfl]
    exact Dict.find?_erase_self _ _ hnd
  · rw [if_neg hw]
    exact Dict.find?_erase_ne _ _ _ hw

theorem subscribe_preserves_InvP (m : Manager) (ws : Conn) (d : Topic)
    (h : InvP m) (hreg : Dict.find? m.connection_subscriptions ws ≠ none) :
    InvP (subscribe m ws d) := by
  obtain ⟨hnd1, hnd2, hcons, hne⟩ := h
  obtain ⟨ts, hts⟩ := Option.ne_none_iff_exists'.mp hreg
  have hdev := find?_dev_subscribe m ws d
  have hconn := find?_conn_subscribe_reg m ws d hts
  refine ⟨?_, ?_, ?_, ?_⟩
  · simp only [subscribe]
    exact Dict.keysNodup_insert _ _ _ hnd1
  · simp only [subscribe, hts]
    exact Dict.keysNodup_insert _ _ _ hnd2
  · intro t w
    have hts' : topicsOf m ws = ts := by simp [topicsOf, hts]
    unfold subsOf topicsOf
    rw [hdev t, hconn w]
    by_cases hdt : d = t
    · subst hdt
      by_cases hw : ws = w
      · subst hw
        simp [mem_sinsert]
      · rw [if_pos rfl, if_neg hw, Option.getD_some]
        rw [mem_sinsert]
        constructor
        · rintro (rfl | hmem)
          · exact absurd rfl hw
          · exact (hcons d w).mp hmem
        · intro hmem
          exact Or.inr ((hcons d w).mpr hmem)
    · rw [if_neg hdt]
      by_cases hw : ws = w
      · subst hw
        rw [if_pos rfl, Option.getD_some, mem_sinsert]
        constructor
        · intro hmem
          exact Or.inr (hts' ▸ (hcons t ws).mp hmem)
        · rintro (rfl | hmem)
          · exact absurd rfl hdt
          · exact (hcons t ws).mpr (hts' ▸ hmem)
      · rw [if_neg hw]
        exact hcons t w
  · intro t s hfs
    rw [hdev t] at hfs
    by_cases hdt : d = t
    · rw [if_pos hdt] at hfs
      obtain rfl : sinsert ws (subsOf m d) = s := Option.some.inj hfs
      exact sinsert_ne_nil _ _
    · rw [if_neg hdt] at hfs
      exact hne t s hfs

theorem unsubscribe_preserves_InvP (m : Manager) (ws : Conn) (d : Topic)
    (h : InvP m) : InvP (unsubscribe m ws d) := by
  obtain ⟨hnd1, hnd2, hcons, hne⟩ := h
  have hdev := find?_dev_unsubscribe m ws d hnd1
  refine ⟨?_, ?_, ?_, ?_⟩
  · simp only [unsubscribe]
    exact keysNodup_removeSubscriber _ _ _ hnd1
  · simp only [unsubscribe]
    cases hc : Dict.find? m.connection_subscriptions ws with
    | none => exact hnd2
    | some ts => exact Dict.keysNodup_insert _ _ _ hnd2
  · intro t w
    have hsub : w ∈ subsOf (unsubscribe m ws d) t ↔
        (if d = t then w ∈ subsOf m t ∧ w ≠ ws else w ∈ subsOf m t) := by
      unfold subsOf
      rw [hdev t]
      by_cases hdt : d = t
      · subst hdt
        rw [if_pos rfl, if_pos rfl]
        exact mem_removeOpt w ws _
      · rw [if_neg hdt, if_neg hdt]
    rw [show w ∈ subsOf (unsubscribe m ws d) t ↔ _ from hsub]
    cases hc : Dict.find? m.connection_subscriptions ws with
    | none =>
        have hconn : (unsubscribe m ws d).connection_subscriptions =
            m.connection_subscriptions := conn_unsubscribe_unreg m ws d hc
        unfold topicsOf
        rw [hconn]
        by_cases hdt : d = t
        · subst hdt
          by_cases hw : ws = w
          · subst hw
            simp only [hc, Option.getD_none]
            constructor
            · rintro ⟨_, hh⟩; exact absurd rfl hh
            · intro hmem; exact absurd hmem (List.not_mem_nil d)
          · rw [if_pos rfl]
            constructor
            · rintro ⟨hmem, _⟩
              exact (hcons d w).mp hmem
            · intro hmem
              exact ⟨(hcons d w).mpr hmem, fun hh => hw hh.symm⟩
        · rw [if_neg hdt]
          exact hcons t w
    | some ts =>
        have hconn := find?_conn_unsubscribe_reg m ws d hc
        have hts' : topicsOf m ws = ts := by simp [topicsOf, hc]
        unfold topicsOf
        rw [hconn w]
        by_cases hw : ws = w
        · subst hw
          rw [if_pos rfl, Option.getD_some, mem_sremove]
          by_cases hdt : d = t
          · subst hdt
            rw [if_pos rfl]
            constructor
            · rintro ⟨_, hh⟩; exact absurd rfl hh
            · rintro ⟨_, hh⟩; exact absurd rfl hh
          · rw [if_neg hdt]
            constructor
            · intro hmem
              exact ⟨hts' ▸ (hcons t ws).mp hmem, fun hh => hdt hh.symm⟩
            · rintro ⟨hmem, _⟩
              exact (hcons t ws).mpr (hts' ▸ hmem)
        · rw [if_neg hw]
          by_cases hdt : d = t
          · subst hdt
            rw [if_pos rfl]
            constructor
            · rintro ⟨hmem, _⟩
              exact (hcons d w).mp hmem
            · intro hmem
              exact ⟨(hcons d w).mpr hmem, fun hh => hw hh.symm⟩
          · rw [if_neg hdt]
            exact hcons t w
  · intro t s hfs
    rw [hdev t] at hfs
    by_cases hdt : d = t
    · rw [if_pos hdt] at hfs
      exact removeOpt_some hfs
    · rw [if_neg hdt] at hfs
      exact hne t s hfs

theorem disconnect_preserves_InvP (m : Manager) (ws : Conn)
    (h : InvP m) : InvP (disconnect m ws) := by
  obtain ⟨hnd1, hnd2, hcons, hne⟩ := h
  have hdev := find?_dev_disconnect m ws hnd1
  have hconn := find?_conn_disconnect m ws hnd2
  refine ⟨?_, ?_, ?_, ?_⟩
  · simp only [disconnect]
    exact keysNodup_fold_removeSubscriber _ _ _ hnd1
  · simp only [disconnect]
    exact Dict.keysNodup_erase _ _ hnd2
  · intro t w
    have hsub : w ∈ subsOf (disconnect m ws) t ↔
        (if t ∈ topicsOf m ws then w ∈ subsOf m t ∧ w ≠ ws
         else w ∈ subsOf m t) := by
      unfold subsOf
      rw [hdev t]
      by_cases hmem : t ∈ topicsOf m ws
      · rw [if_pos hmem, if_pos hmem]
        exact mem_removeOpt w ws _
      · rw [if_neg hmem, if_neg hmem]
    have htop : topicsOf (disconnect m ws) w =
        if ws = w then [] else topicsOf m w := by
      unfold topicsOf
      rw [hconn w]
      by_cases hw : ws = w
      · rw [if_pos hw, if_pos hw]; rfl
      · rw [if_neg hw, if_neg hw]
    rw [show w ∈ subsOf (disconnect m ws) t ↔ _ from hsub, htop]
    by_cases hw : ws = w
    · subst hw
      rw [if_pos rfl]
      by_cases hmem : t ∈ topicsOf m ws
      · rw [if_pos hmem]
        constructor
        · rintro ⟨_, hh⟩; exact absurd rfl hh
        · intro hc; exact absurd hc (List.not_mem_nil t)
      · rw [if_neg hmem]
        constructor
        · intro hc; exact absurd ((hcons t ws).mp hc) hmem
        · intro hc; exact absurd hc (List.not_mem_nil t)
    · rw [if_neg hw]
      by_cases hmem : t ∈ topicsOf m ws
      · rw [if_pos hmem]
        constructor
        · rintro ⟨hc, _⟩; exact (hcons t w).mp hc
        · intro hc
          exact ⟨(hcons t w).mpr hc, fun hh => hw hh.symm⟩
      · rw [if_neg hmem]
        exact hcons t w
  · intro t s hfs
    rw [hdev t] at hfs
    by_cases hmem : t ∈ topicsOf m ws
    · rw [if_pos hmem] at hfs
      exact removeOpt_some hfs
    · rw [if_neg hmem] at hfs
      exact hne t s hfs

theorem inv_iff_invP (m : Manager) : Inv m ↔ InvP m := by
  constructor
  · rintro ⟨hnd1, hnd2, hfwd, hbwd, hne⟩
    refine ⟨hnd1, hnd2, ?_, ?_⟩
    · intro t ws
      constructor
      · intro hmem
        unfold subsOf at hmem
        cases hf : Dict.find? m.device_subscribers t with
        | none => rw [hf] at hmem; simp at hmem
        | some s =>
            rw [hf, Option.getD_some] at hmem
            exact hfwd (t, s) (Dict.find?_mem hf) ws hmem
      · intro hmem
        unfold topicsOf at hmem
        cases hf : Dict.find? m.connection_subscriptions ws with
        | none => rw [hf] at hmem; simp at hmem
        | some ts =>
            rw [hf, Option.getD_some] at hmem
            exact hbwd (ws, ts) (Dict.find?_mem hf) t hmem
    · intro t s hf
      exact hne (t, s) (Dict.find?_mem hf)
  · rintro ⟨hnd1, hnd2, hcons, hne⟩
    refine ⟨hnd1, hnd2, ?_, ?_, ?_⟩
    · rintro ⟨t, s⟩ hp ws hws
      have hf := Dict.mem_find? hnd1 hp
      refine (hcons t ws).mp ?_
      unfold subsOf
      rw [hf, Option.getD_some]
      exact hws
    · rintro ⟨ws, ts⟩ hq t ht
      have hf := Dict.mem_find? hnd2 hq
      refine (hcons t ws).mpr ?_
      unfold topicsOf
      rw [hf, Option.getD_some]
      exact ht
    · rintro ⟨t, s⟩ hp
      exact hne t s (Dict.mem_find? hnd1 hp)

theorem run_preserves_InvP (ops : List WSOp) (m : Manager) (h : InvP m)
    (hv : validSeq m ops = true) : InvP (run m ops) := by
  induction ops generalizing m with
  | nil => exact h
  | cons op rest ih =>
      rw [show validSeq m (op :: rest) =
        (validOp m op && validSeq (applyOp m op) rest) from rfl,
        Bool.and_eq_true] at hv
      refine ih (applyOp m op) ?_ hv.2
      cases op with
      | sub ws d =>
          refine subscribe_preserves_InvP m ws d h ?_
          have hvo := hv.1
          rw [show validOp m (WSOp.sub ws d) =
            (Dict.find? m.connection_subscriptions ws).isSome from rfl] at hvo
          simp only [Option.isSome_iff_exists] at hvo
          obtain ⟨ts, hts⟩ := hvo
          rw [hts]
          simp
      | unsub ws d => exact unsubscribe_preserves_InvP m ws d h

theorem disconnect_gone (m : Manager) (ws : Conn) (h : InvP m) :
    Gone (disconnect m ws) ws := by
  obtain ⟨hnd1, hnd2, hcons, _⟩ := h
  constructor
  · rw [find?_conn_disconnect m ws hnd2 ws, if_pos rfl]
  · intro t
    unfold subsOf
    rw [find?_dev_disconnect m ws hnd1 t]
    by_cases hmem : t ∈ topicsOf m ws
    · rw [if_pos hmem]
      exact not_mem_removeOpt ws _
    · rw [if_neg hmem]
      intro hc
      exact hmem ((hcons t ws).mp hc)

theorem gone_disconnect_mono (m : Manager) (ws w : Conn) (h : InvP m)
    (hg : Gone m ws) : Gone (disconnect m w) ws := by
  obtain ⟨hnd1, hnd2, _, _⟩ := h
  obtain ⟨hg1, hg2⟩ := hg
  constructor
  · rw [find?_conn_disconnect m w hnd2 ws]
    by_cases hw : w = ws
    · rw [if_pos hw]
    · rw [if_neg hw]; exact hg1
  · intro t
    unfold subsOf
    rw [find?_dev_disconnect m w hnd1 t]
    by_cases hmem : t ∈ topicsOf m w
    · rw [if_pos hmem]
      intro hc
      exact hg2 t ((mem_removeOpt ws w _).mp hc).1
    · rw [if_neg hmem]
      exact hg2 t

theorem fold_disconnect_InvP (ds : List Conn) (m : Manager) (h : InvP m) :
    InvP (ds.foldl (fun acc ws => disconnect acc ws) m) := by
  induction ds generalizing m with
  | nil => exact h
  | cons w rest ih => exact ih _ (disconnect_preserves_InvP m w h)

theorem gone_fold_disconnect (ds : List Conn) (m : Manager) (ws : Conn)
    (h : InvP m) (hg : Gone m ws) :
    Gone (ds.foldl (fun acc w => disconnect acc w) m) ws := by
  induction ds generalizing m with
  | nil => exact hg
  | cons w rest ih =>
      exact ih _ (disconnect_preserves_InvP m w h)
        (gone_disconnect_mono m ws w h hg)

theorem fold_disconnect_gone_of_mem (ds : List Conn) (ws : Conn) :
    ∀ m : Manager, InvP m → ws ∈ ds →
      Gone (ds.foldl (fun acc w => disconnect acc w) m) ws := by
  induction ds with
  | nil => intro m _ hmem; simp at hmem
  | cons w rest ih =>
      intro m h hmem
      rcases List.mem_cons.mp hmem with rfl | hmem'
      · exact gone_fold_disconnect rest _ ws
          (disconnect_preserves_InvP m ws h) (disconnect_gone m ws h)
      · exact ih _ (disconnect_preserves_InvP m w h) hmem'


theorem sremove_eq_nil {α : Type} [DecidableEq α] {x : α} {s : List α}
    (h : sremove x s = []) : ∀ y ∈ s, y = x := by
  intro y hy
  by_contra hne
  have : y ∈ sremove x s := (mem_sremove x y s).mpr ⟨hy, hne⟩
  rw [h] at this
  exact List.not_mem_nil y this

theorem unitSeconds_pos {c : Char} {k : Nat} (h : unitSeconds c = some k) :
    0 < k := by
  unfold unitSeconds at h
  split at h <;> simp_all <;> omega

theorem parseDuration_pos {s : String} {u : Nat}
    (h : parseDuration s = some u) : 0 < u := by
  unfold parseDuration at h
  split at h
  · exact absurd h (by simp)
  · split at h
    · exact absurd h (by simp)
    · split at h
      · exact absurd h (by simp)
      · next k hk =>
          split at h
          · exact absurd h (by simp)
          · next hv =>
              obtain rfl : _ = u := Option.some.inj h
              exact Nat.mul_pos (Nat.pos_of_ne_zero hv) (unitSeconds_pos hk)


theorem timeRangeLast_of_parse {s : String} {u : Nat}
    (h : parseDuration s = some u) (now : Int) :
    TimeRange.last s now = some ⟨now - (u : Int), now⟩ := by
  unfold TimeRange.last
  rw [h]
  have hu := parseDuration_pos h
  show (if now - (u : Int) ≥ now then (none : Option TimeRange)
    else some ⟨now - (u : Int), now⟩) = some ⟨now - (u : Int), now⟩
  rw [if_neg (by omega)]

theorem find?_filterKeys {α β : Type} [DecidableEq α] (p : α → Bool)
    (l : Dict α β) (a : α) :
    Dict.find? (l.filter (fun kv => p kv.1)) a =
      if p a then Dict.find? l a else none := by
  induction l with
  | nil => simp [Dict.find?]
  | cons kv rest ih =>
      obtain ⟨k, v⟩ := kv
      by_cases hp : p k
      · rw [List.filter_cons_of_pos (by simpa using hp), Dict.find?,
          Dict.find?]
        by_cases hk : k = a
        · subst hk
          rw [if_pos rfl, if_pos hp, if_pos rfl]
        · rw [if_neg hk, if_neg hk, ih]
      · rw [List.filter_cons_of_neg (by simpa using hp), Dict.find?]
        by_cases hk : k = a
        · subst hk
          rw [if_neg (by simpa using hp), ih, if_neg (by simpa using hp)]
        · rw [if_neg hk, ih]

theorem leadsWith_iff (n h : List Char) :
    leadsWith n h = true ↔ ∃ rest, h = n ++ rest := by
  induction n generalizing h with
  | nil =>
      simp only [leadsWith, List.nil_append, true_iff]
      exact ⟨h, rfl⟩
  | cons a as ih =>
      cases h with
      | nil =>
          simp only [leadsWith, Bool.false_eq_true, false_iff]
          rintro ⟨rest, hr⟩
          exact absurd hr (by simp)
      | cons b bs =>
          rw [leadsWith, Bool.and_eq_true, beq_iff_eq, ih bs]
          constructor
          · rintro ⟨rfl, rest, rfl⟩
            exact ⟨rest, rfl⟩
          · rintro ⟨rest, hr⟩
            rw [List.cons_append] at hr
            injection hr with h1 h2
            exact ⟨h1.symm, rest, h2⟩

theorem occursIn_iff (n h : List Char) :
    occursIn n h = true ↔ ∃ pre post, h = pre ++ (n ++ post) := by
  induction h with
  | nil =>
      rw [show occursIn n [] = leadsWith n [] from rfl, leadsWith_iff]
      constructor
      · rintro ⟨rest, hr⟩
        exact ⟨[], rest, hr⟩
      · rintro ⟨pre, post, hp⟩
        cases pre with
        | nil => exact ⟨post, hp⟩
        | cons x xs => exact absurd hp (by simp)
  | cons b bs ih =>
      rw [show occursIn n (b :: bs) =
          (leadsWith n (b :: bs) || occursIn n bs) from rfl,
        Bool.or_eq_true, leadsWith_iff, ih]
      constructor
      · rintro (⟨rest, hr⟩ | ⟨pre, post, hp⟩)
        · exact ⟨[], rest, hr⟩
        · exact ⟨b :: pre, post, by rw [List.cons_append, hp]⟩
      · rintro ⟨pre, post, hp⟩
        cases pre with
        | nil => exact Or.inl ⟨post, hp⟩
        | cons x xs =>
            rw [List.cons_append] at hp
            injection hp with h1 h2
            exact Or.inr ⟨xs, post, h2⟩

theorem strContains_iff (k d : String) :
    strContains k d = true ↔ ∃ pre post : String, k = pre ++ d ++ post := by
  obtain ⟨kd⟩ := k
  obtain ⟨dd⟩ := d
  rw [show strContains ⟨kd⟩ ⟨dd⟩ = occursIn dd kd from rfl, occursIn_iff]
  constructor
  · rintro ⟨pre, post, hp⟩
    refine ⟨⟨pre⟩, ⟨post⟩, ?_⟩
    rw [show (String.mk pre ++ String.mk dd ++ String.mk post : String) =
      String.mk (pre ++ (dd ++ post)) from
        congrArg String.mk (List.append_assoc pre dd post)]
    rw [hp]
  · rintro ⟨⟨pre⟩, ⟨post⟩, hp⟩
    refine ⟨pre, post, ?_⟩
    rw [show (String.mk pre ++ String.mk dd ++ String.mk post : String) =
      String.mk (pre ++ (dd ++ post)) from
        congrArg String.mk (List.append_assoc pre dd post)] at hp
    injection hp



/-! ## Claim theorems -/

/-- C9: `TimeRange.last("24h")` with now = 2024-01-15T12:00:00Z (epoch
1705320000) yields start = 2024-01-14T12:00:00Z (epoch 1705233600) and
end = now; `TimeRange.last("bad")` takes the `ValueError`
(InvalidTimeRange) path. -/
theorem c9_time_range_last :
    TimeRange.last "24h" 1705320000 = some ⟨1705233600, 1705320000⟩ ∧
    TimeRange.last "bad" 1705320000 = none := by
  constructor <;> decide

/-- C2 counterexample: the cache holds one entry whose key references
device "esp32_12"; invalidating device "esp32_1" (a different device)
nevertheless removes that entry, because `clear_cache` matches keys by
the substring test `device_id in key`. -/
theorem c2_counterexample :
    Dict.find? ([("stats:esp32_12:24h", ((0 : Int), (7 : Nat)))] : Cache Nat)
        "stats:esp32_12:24h" = some (0, 7) ∧
    "esp32_12" ≠ "esp32_1" ∧
    Dict.find?
        (clear_cache
          ([("stats:esp32_12:24h", ((0 : Int), (7 : Nat)))] : Cache Nat)
          (some "esp32_1"))
        "stats:esp32_12:24h" = none := by
  refine ⟨by decide, by decide, by decide⟩

/-- C2 (amended): `clear_cache` with a device id removes exactly the
entries whose key contains the device id as a substring (so every key
that references the device, but possibly also keys of other devices
that contain the id as a substring), and leaves every entry whose key
does not contain it unchanged; the substring test means exactly "the
key splits as `pre ++ d ++ post`". -/
theorem c2_clear_cache_substring {α : Type} (cache : Cache α)
    (d k : String) :
    (strContains k d = true →
      Dict.find? (clear_cache cache (some d)) k = none) ∧
    (strContains k d = false →
      Dict.find? (clear_cache cache (some d)) k = Dict.find? cache k) ∧
    (strContains k d = true ↔ ∃ pre post : String, k = pre ++ d ++ post) := by
  have hfilter := find?_filterKeys (fun key => !(strContains key d)) cache k
  refine ⟨?_, ?_, strContains_iff k d⟩
  · intro hc
    rw [show clear_cache cache (some d) =
        cache.filter (fun kv => !(strContains kv.1 d)) from rfl,
      hfilter, if_neg (by simp [hc])]
  · intro hc
    rw [show clear_cache cache (some d) =
        cache.filter (fun kv => !(strContains kv.1 d)) from rfl,
      hfilter, if_pos (by simp [hc])]

theorem c2_witness :
    Dict.find?
        (clear_cache ([("stats:esp32_01:24h", ((0 : Int), (7 : Nat))),
            ("stats:esp32_02:24h", ((0 : Int), (8 : Nat)))] : Cache Nat)
          (some "esp32_01")) "stats:esp32_01:24h" = none ∧
    Dict.find?
        (clear_cache ([("stats:esp32_01:24h", ((0 : Int), (7 : Nat))),
            ("stats:esp32_02:24h", ((0 : Int), (8 : Nat)))] : Cache Nat)
          (some "esp32_01")) "stats:esp32_02:24h" = some (0, 8) :=
  ⟨(c2_clear_cache_substring _ "esp32_01" "stats:esp32_01:24h").1 (by decide),
   by
    rw [(c2_clear_cache_substring
        ([("stats:esp32_01:24h", ((0 : Int), (7 : Nat))),
          ("stats:esp32_02:24h", ((0 : Int), (8 : Nat)))] : Cache Nat)
        "esp32_01" "stats:esp32_02:24h").2.1 (by decide)]
    decide⟩

/-- C8 counterexample: the cache holds an entry for the key that is
already expired (age 100 > ttl 60); the store read raises; the
exception propagates (`computeFailed`) but the cache mapping is NOT
left unchanged — the expired entry was deleted by the lookup. -/
theorem c8_counterexample :
    get_device_stats ([("stats:esp32_01:24h", ((0 : Int), (7 : Nat)))] :
        Cache Nat) 60 100 "esp32_01" "24h" none =
      GDSOutcome.computeFailed [] ∧
    ([] : Cache Nat) ≠ [("stats:esp32_01:24h", ((0 : Int), (7 : Nat)))] := by
  refine ⟨by decide, by decide⟩

/-- C8 (amended): if the store read raises during a cache miss, the
exception propagates to the caller and nothing is added to or updated
in the cache — a failed computation is never cached, every other key's
entry is untouched, and the cache is unchanged except that an
already-expired entry for the looked-up key may have been deleted by
the lookup itself. -/
theorem c8_compute_failure_uncached {α : Type} (cache : Cache α)
    (ttl now : Int) (device_id range_str : String) (u : Nat)
    (hnd : Dict.KeysNodup cache)
    (hparse : parseDuration range_str = some u)
    (hmiss : Dict.find? cache (statsKey device_id range_str) = none ∨
      ∃ t0 v, Dict.find? cache (statsKey device_id range_str) = some (t0, v) ∧
        now - t0 > ttl) :
    ∃ c1, get_device_stats cache ttl now device_id range_str none =
        GDSOutcome.computeFailed c1 ∧
      (∀ k, k ≠ statsKey device_id range_str →
        Dict.find? c1 k = Dict.find? cache k) ∧
      Dict.find? c1 (statsKey device_id range_str) = none ∧
      (c1 = cache ∨ c1 = Dict.erase cache (statsKey device_id range_str)) := by
  unfold get_device_stats
  rw [timeRangeLast_of_parse hparse now]
  rcases hmiss with habsent | ⟨t0, v, hentry, hexp⟩
  · refine ⟨cache, ?_, fun k _ => rfl, habsent, Or.inl rfl⟩
    show (match get_cached cache ttl now (statsKey device_id range_str) with
      | (some v, c1) => GDSOutcome.ok v c1 false
      | (none, c1) =>
          match (none : Option α) with
          | none => GDSOutcome.computeFailed c1
          | some stats =>
              GDSOutcome.ok stats
                (set_cached c1 now (statsKey device_id range_str) stats)
                true) = GDSOutcome.computeFailed cache
    rw [show get_cached cache ttl now (statsKey device_id range_str) =
      ((none : Option α), cache) by unfold get_cached; rw [habsent]]
  · refine ⟨Dict.erase cache (statsKey device_id range_str), ?_,
      fun k hk => Dict.find?_erase_ne _ _ _ (fun h => hk h.symm), ?_,
      Or.inr rfl⟩
    · show (match get_cached cache ttl now (statsKey device_id range_str) with
        | (some v, c1) => GDSOutcome.ok v c1 false
        | (none, c1) =>
            match (none : Option α) with
            | none => GDSOutcome.computeFailed c1
            | some stats =>
                GDSOutcome.ok stats
                  (set_cached c1 now (statsKey device_id range_str) stats)
                  true) =
        GDSOutcome.computeFailed
          (Dict.erase cache (statsKey device_id range_str))
      rw [show get_cached cache ttl now (statsKey device_id range_str) =
        ((none : Option α),
          Dict.erase cache (statsKey device_id range_str)) by
        unfold get_cached
        rw [hentry]
        show (if now - t0 > ttl then
            ((none : Option α), Dict.erase cache (statsKey device_id range_str))
          else (some v, cache)) =
          ((none : Option α), Dict.erase cache (statsKey device_id range_str))
        rw [if_pos hexp]]
    · exact Dict.find?_erase_self _ _ hnd

theorem c8_witness :
    ∃ c1, get_device_stats ([("stats:esp32_01:24h", ((0 : Int), (7 : Nat)))] :
          Cache Nat) 60 100 "esp32_01" "24h" none =
        GDSOutcome.computeFailed c1 ∧
      (∀ k, k ≠ statsKey "esp32_01" "24h" →
        Dict.find? c1 k =
          Dict.find? ([("stats:esp32_01:24h", ((0 : Int), (7 : Nat)))] :
            Cache Nat) k) ∧
      Dict.find? c1 (statsKey "esp32_01" "24h") = none ∧
      (c1 = ([("stats:esp32_01:24h", ((0 : Int), (7 : Nat)))] : Cache Nat) ∨
        c1 = Dict.erase ([("stats:esp32_01:24h", ((0 : Int), (7 : Nat)))] :
          Cache Nat) (statsKey "esp32_01" "24h")) :=
  c8_compute_failure_uncached _ 60 100 "esp32_01" "24h" 86400 (by decide)
    (by decide) (Or.inr ⟨0, 7, by decide, by decide⟩)

/-- C3: from any state satisfying the subscription-index invariant,
every sequence of subscribe/unsubscribe calls in which subscribe is
invoked only on registered connections preserves it: the two mappings
remain mutually consistent (a connection is in a topic's subscriber set
iff that topic is in the connection's topic set) and no topic is ever
mapped to an empty subscriber set. -/
theorem c3_subscription_index_invariant (m : Manager) (ops : List WSOp)
    (hInv : Inv m) (hv : validSeq m ops = true) :
    Inv (run m ops) ∧ Consistent (run m ops) ∧ NoEmptyTopics (run m ops) := by
  have h := run_preserves_InvP ops m ((inv_iff_invP m).mp hInv) hv
  exact ⟨(inv_iff_invP _).mpr h, h.2.2.1, h.2.2.2⟩

theorem c3_witness :
    Inv (run ⟨[], [(0, []), (1, [])]⟩
        [WSOp.sub 0 "esp32_01", WSOp.sub 1 "esp32_01",
         WSOp.unsub 0 "esp32_01"]) ∧
    Consistent (run ⟨[], [(0, []), (1, [])]⟩
        [WSOp.sub 0 "esp32_01", WSOp.sub 1 "esp32_01",
         WSOp.unsub 0 "esp32_01"]) ∧
    NoEmptyTopics (run ⟨[], [(0, []), (1, [])]⟩
        [WSOp.sub 0 "esp32_01", WSOp.sub 1 "esp32_01",
         WSOp.unsub 0 "esp32_01"]) :=
  c3_subscription_index_invariant _ _ (by decide) (by decide)

/-- C10: `subscribe` on a connection absent from the connection index
still adds it to the topic's subscriber set while the index stays
without it; the two mappings are then mutually inconsistent, and a
subsequent `disconnect` of that connection leaves it in the topic's
subscriber set. -/
theorem c10_subscribe_unregistered (m : Manager) (ws : Conn) (d : Topic)
    (h : Dict.find? m.connection_subscriptions ws = none) :
    ws ∈ subsOf (subscribe m ws d) d ∧
    Dict.find? (subscribe m ws d).connection_subscriptions ws = none ∧
    ¬ Consistent (subscribe m ws d) ∧
    ws ∈ subsOf (disconnect (subscribe m ws d) ws) d := by
  have hdev := find?_dev_subscribe m ws d d
  rw [if_pos rfl] at hdev
  have hmem : ws ∈ subsOf (subscribe m ws d) d := by
    unfold subsOf
    rw [hdev, Option.getD_some]
    exact (mem_sinsert ws ws _).mpr (Or.inl rfl)
  have hconn : Dict.find? (subscribe m ws d).connection_subscriptions ws =
      none := by
    rw [conn_subscribe_unreg m ws d h]; exact h
  refine ⟨hmem, hconn, ?_, ?_⟩
  · intro hc
    have hmem2 := (hc d ws).mp hmem
    unfold topicsOf at hmem2
    rw [hconn] at hmem2
    exact List.not_mem_nil d hmem2
  · have hsame : (disconnect (subscribe m ws d) ws).device_subscribers =
        (subscribe m ws d).device_subscribers := by
      simp only [disconnect, hconn, Option.getD_none, List.foldl_nil]
    unfold subsOf
    rw [hsame, hdev, Option.getD_some]
    exact (mem_sinsert ws ws _).mpr (Or.inl rfl)

theorem c10_witness :
    0 ∈ subsOf (subscribe Manager.empty 0 "esp32_01") "esp32_01" ∧
    Dict.find?
        (subscribe Manager.empty 0 "esp32_01").connection_subscriptions 0 =
      none ∧
    ¬ Consistent (subscribe Manager.empty 0 "esp32_01") ∧
    0 ∈ subsOf (disconnect (subscribe Manager.empty 0 "esp32_01") 0)
        "esp32_01" :=
  c10_subscribe_unregistered Manager.empty 0 "esp32_01" (by decide)



/-- C7: `disconnect` removes the connection from every topic's
subscriber set and from the connection index, deletes every topic whose
subscriber set thereby becomes empty, and leaves the whole index
unchanged when the connection was never registered/subscribed. -/
theorem c7_disconnect_cleanup (m : Manager) (ws : Conn) (hInv : Inv m) :
    (∀ t, ws ∉ subsOf (disconnect m ws) t) ∧
    Dict.find? (disconnect m ws).connection_subscriptions ws = none ∧
    (∀ t s, Dict.find? m.device_subscribers t = some s →
      sremove ws s = [] →
      Dict.find? (disconnect m ws).device_subscribers t = none) ∧
    (Dict.find? m.connection_subscriptions ws = none → disconnect m ws = m) := by
  obtain ⟨hnd1, hnd2, hcons, hne⟩ := (inv_iff_invP m).mp hInv
  have hgone := disconnect_gone m ws ⟨hnd1, hnd2, hcons, hne⟩
  refine ⟨hgone.2, hgone.1, ?_, ?_⟩
  · intro t s hfs hrem
    have hsne : s ≠ [] := hne t s hfs
    have hws : ws ∈ s := by
      cases s with
      | nil => exact absurd rfl hsne
      | cons a rest =>
          have ha := sremove_eq_nil hrem a (List.mem_cons_self a rest)
          rw [← ha]
          exact List.mem_cons_self a rest
    have htop : t ∈ topicsOf m ws := (hcons t ws).mp (by
      unfold subsOf
      rw [hfs, Option.getD_some]
      exact hws)
    rw [find?_dev_disconnect m ws hnd1 t, if_pos htop, hfs]
    simp [removeOpt, hrem]
  · intro hnone
    have hdev : (disconnect m ws).device_subscribers =
        m.device_subscribers := by
      simp only [disconnect, hnone, Option.getD_none, List.foldl_nil]
    have hconn : (disconnect m ws).connection_subscriptions =
        m.connection_subscriptions := by
      simp only [disconnect]
      exact Dict.erase_of_find?_eq_none _ _ hnone
    calc disconnect m ws
        = (⟨(disconnect m ws).device_subscribers,
            (disconnect m ws).connection_subscriptions⟩ : Manager) := rfl
      _ = ⟨m.device_subscribers, m.connection_subscriptions⟩ := by
            rw [hdev, hconn]
      _ = m := rfl

theorem c7_witness :
    (∀ t, 0 ∉ subsOf
      (disconnect ⟨[("esp32_01", [0])], [(0, ["esp32_01"]), (1, [])]⟩ 0) t) ∧
    Dict.find? (disconnect ⟨[("esp32_01", [0])],
        [(0, ["esp32_01"]), (1, [])]⟩ 0).connection_subscriptions 0 = none ∧
    (∀ t s, Dict.find?
        (⟨[("esp32_01", [0])], [(0, ["esp32_01"]), (1, [])]⟩ :
          Manager).device_subscribers t = some s →
      sremove 0 s = [] →
      Dict.find? (disconnect ⟨[("esp32_01", [0])],
          [(0, ["esp32_01"]), (1, [])]⟩ 0).device_subscribers t = none) ∧
    (Dict.find? (⟨[("esp32_01", [0])], [(0, ["esp32_01"]), (1, [])]⟩ :
        Manager).connection_subscriptions 0 = none →
      disconnect ⟨[("esp32_01", [0])], [(0, ["esp32_01"]), (1, [])]⟩ 0 =
        ⟨[("esp32_01", [0])], [(0, ["esp32_01"]), (1, [])]⟩) :=
  c7_disconnect_cleanup ⟨[("esp32_01", [0])], [(0, ["esp32_01"]), (1, [])]⟩ 0
    (by decide)

/-- C5: during `broadcast_to_device` each subscriber's delivery depends
only on its own send outcome (a failure on one connection does not
prevent delivery to the others), and every connection whose send failed
is unregistered — absent from the connection index and from every
topic's subscriber set — after the fan-out completes; each send's
exception is consumed by its own task, so the call itself always
returns (no exception propagates). -/
theorem c5_broadcast_failure_isolation (m : Manager) (d : Topic)
    (send : Conn → SendResult) (hInv : Inv m) :
    (∀ ws, ws ∈ (broadcast_to_device m d send).2.1 ↔
      ws ∈ subsOf m d ∧ send ws = SendResult.delivered) ∧
    (∀ ws, ws ∈ (broadcast_to_device m d send).2.2 ↔
      ws ∈ subsOf m d ∧ send ws = SendResult.failed) ∧
    (∀ ws ∈ (broadcast_to_device m d send).2.2,
      Gone (broadcast_to_device m d send).1 ws) := by
  have hP := (inv_iff_invP m).mp hInv
  refine ⟨?_, ?_, ?_⟩
  · intro ws
    show ws ∈ (subsOf m d).filter
        (fun w => decide (send w = SendResult.delivered)) ↔ _
    rw [List.mem_filter]
    simp only [decide_eq_true_eq]
  · intro ws
    show ws ∈ (subsOf m d).filter
        (fun w => decide (send w = SendResult.failed)) ↔ _
    rw [List.mem_filter]
    simp only [decide_eq_true_eq]
  · intro ws hmem
    exact fold_disconnect_gone_of_mem _ ws m hP hmem

theorem c5_witness :
    (∀ ws, ws ∈ (broadcast_to_device
        ⟨[("esp32_01", [0, 1, 2])],
          [(0, ["esp32_01"]), (1, ["esp32_01"]), (2, ["esp32_01"])]⟩
        "esp32_01"
        (fun ws => if ws = 1 then SendResult.failed
          else SendResult.delivered)).2.1 ↔
      ws ∈ subsOf ⟨[("esp32_01", [0, 1, 2])],
          [(0, ["esp32_01"]), (1, ["esp32_01"]), (2, ["esp32_01"])]⟩
        "esp32_01" ∧
      (if ws = 1 then SendResult.failed else SendResult.delivered) =
        SendResult.delivered) ∧
    (∀ ws, ws ∈ (broadcast_to_device
        ⟨[("esp32_01", [0, 1, 2])],
          [(0, ["esp32_01"]), (1, ["esp32_01"]), (2, ["esp32_01"])]⟩
        "esp32_01"
        (fun ws => if ws = 1 then SendResult.failed
          else SendResult.delivered)).2.2 ↔
      ws ∈ subsOf ⟨[("esp32_01", [0, 1, 2])],
          [(0, ["esp32_01"]), (1, ["esp32_01"]), (2, ["esp32_01"])]⟩
        "esp32_01" ∧
      (if ws = 1 then SendResult.failed else SendResult.delivered) =
        SendResult.failed) ∧
    (∀ ws ∈ (broadcast_to_device
        ⟨[("esp32_01", [0, 1, 2])],
          [(0, ["esp32_01"]), (1, ["esp32_01"]), (2, ["esp32_01"])]⟩
        "esp32_01"
        (fun ws => if ws = 1 then SendResult.failed
          else SendResult.delivered)).2.2,
      Gone (broadcast_to_device
        ⟨[("esp32_01", [0, 1, 2])],
          [(0, ["esp32_01"]), (1, ["esp32_01"]), (2, ["esp32_01"])]⟩
        "esp32_01"
        (fun ws => if ws = 1 then SendResult.failed
          else SendResult.delivered)).1 ws) :=
  c5_broadcast_failure_isolation _ "esp32_01" _ (by decide)

/-- C6: in `get_device_stats`, if a cached entry for the key exists with
age at most the TTL the cached value is returned without running the
store read (for any store read, even a failing one); if its age exceeds
the TTL the store read runs again and its result is cached under the
current timestamp. -/
theorem c6_cache_ttl {α : Type} (cache : Cache α) (ttl now t0 : Int)
    (device_id range_str : String) (v : α) (get_stats : Option α) (u : Nat)
    (hparse : parseDuration range_str = some u)
    (hentry : Dict.find? cache (statsKey device_id range_str) =
      some (t0, v)) :
    (now - t0 ≤ ttl →
      get_device_stats cache ttl now device_id range_str get_stats =
        GDSOutcome.ok v cache false) ∧
    (now - t0 > ttl → ∀ w, get_stats = some w →
      ∃ c1, get_device_stats cache ttl now device_id range_str get_stats =
          GDSOutcome.ok w c1 true ∧
        Dict.find? c1 (statsKey device_id range_str) = some (now, w)) := by
  constructor
  · intro hfresh
    unfold get_device_stats
    rw [timeRangeLast_of_parse hparse now]
    show (match get_cached cache ttl now (statsKey device_id range_str) with
      | (some v, c1) => GDSOutcome.ok v c1 false
      | (none, c1) =>
          match get_stats with
          | none => GDSOutcome.computeFailed c1
          | some stats =>
              GDSOutcome.ok stats
                (set_cached c1 now (statsKey device_id range_str) stats)
                true) = GDSOutcome.ok v cache false
    rw [show get_cached cache ttl now (statsKey device_id range_str) =
        (some v, cache) by
      unfold get_cached
      rw [hentry]
      show (if now - t0 > ttl then
          ((none : Option α), Dict.erase cache (statsKey device_id range_str))
        else (some v, cache)) = (some v, cache)
      rw [if_neg (by omega)]]
  · intro hexp w hw
    subst hw
    refine ⟨Dict.insert (Dict.erase cache (statsKey device_id range_str))
      (statsKey device_id range_str) (now, w), ?_, ?_⟩
    · unfold get_device_stats
      rw [timeRangeLast_of_parse hparse now]
      show (match get_cached cache ttl now (statsKey device_id range_str) with
        | (some v, c1) => GDSOutcome.ok v c1 false
        | (none, c1) =>
            match some w with
            | none => GDSOutcome.computeFailed c1
            | some stats =>
                GDSOutcome.ok stats
                  (set_cached c1 now (statsKey device_id range_str) stats)
                  true) = _
      rw [show get_cached cache ttl now (statsKey device_id range_str) =
          ((none : Option α),
            Dict.erase cache (statsKey device_id range_str)) by
        unfold get_cached
        rw [hentry]
        show (if now - t0 > ttl then
            ((none : Option α),
              Dict.erase cache (statsKey device_id range_str))
          else (some v, cache)) = _
        rw [if_pos hexp]]
      rfl
    · rw [show Dict.find?
          (Dict.insert (Dict.erase cache (statsKey device_id range_str))
            (statsKey device_id range_str) (now, w))
          (statsKey device_id range_str) = _ from
        Dict.find?_insert _ _ _ _, if_pos rfl]

theorem c6_witness :
    (get_device_stats ([("stats:esp32_01:24h", ((0 : Int), (7 : Nat)))] :
        Cache Nat) 60 60 "esp32_01" "24h" (some 99) =
      GDSOutcome.ok 7 [("stats:esp32_01:24h", ((0 : Int), (7 : Nat)))]
        false) ∧
    (∃ c1, get_device_stats ([("stats:esp32_01:24h",
          ((0 : Int), (7 : Nat)))] : Cache Nat) 60 61 "esp32_01" "24h"
          (some 99) = GDSOutcome.ok 99 c1 true ∧
      Dict.find? c1 (statsKey "esp32_01" "24h") = some (61, 99)) :=
  ⟨(c6_cache_ttl _ 60 60 0 "esp32_01" "24h" 7 (some 99) 86400 (by decide)
      (by decide)).1 (by decide),
   (c6_cache_ttl _ 60 61 0 "esp32_01" "24h" 7 (some 99) 86400 (by decide)
      (by decide)).2 (by decide) 99 rfl⟩



/-- C4: every validation failure of `ingest` — missing/empty or invalid
API key, unknown device, inactive device, invalid metrics (e.g. a
temperature outside -40..85) or no metric at all — raises the
corresponding typed error and performs no store write, no last-seen
update and no broadcast (the effect trace is empty whenever the result
is not `ok`). -/
theorem c4_ingest_validation_failures (env : IngestEnv) (d : String)
    (md : SensorMetricsData) (k : Option String) (now : Int) :
    ((k = none ∨ k = some "" ∨
        ∃ key, k = some key ∧ key ∉ env.device_api_keys) →
      ingest env d md k now = (IngestResult.authenticationError, [])) ∧
    (∀ key, k = some key → key ≠ "" → key ∈ env.device_api_keys →
      Dict.find? env.devices d = none →
      ingest env d md k now = (IngestResult.deviceNotFound, [])) ∧
    (∀ key dev, k = some key → key ≠ "" → key ∈ env.device_api_keys →
      Dict.find? env.devices d = some dev → dev.is_active = false →
      ingest env d md k now = (IngestResult.deviceInactive, [])) ∧
    (∀ key dev, k = some key → key ≠ "" → key ∈ env.device_api_keys →
      Dict.find? env.devices d = some dev → dev.is_active = true →
      (sensorMetricsValid md = false ∨ has_any_metric md = false) →
      ingest env d md k now = (IngestResult.invalidPayload, [])) ∧
    (∀ res effs, ingest env d md k now = (res, effs) →
      (∀ r, res ≠ IngestResult.ok r) → effs = []) := by
  refine ⟨?_, ?_, ?_, ?_, ?_⟩
  · rintro (rfl | rfl | ⟨key, rfl, hnm⟩)
    · rfl
    · simp [ingest]
    · by_cases hk0 : key = ""
      · subst hk0; simp [ingest]
      · show (if key = "" then (IngestResult.authenticationError, ([] : List Effect))
          else if key ∉ env.device_api_keys then
            (IngestResult.authenticationError, [])
          else _) = _
        rw [if_neg hk0, if_pos hnm]
  · rintro key rfl hk0 hmem hfind
    show (if key = "" then (IngestResult.authenticationError, ([] : List Effect))
      else if key ∉ env.device_api_keys then
        (IngestResult.authenticationError, [])
      else _) = _
    rw [if_neg hk0, if_neg (not_not_intro hmem), hfind]
  · rintro key dev rfl hk0 hmem hfind hact
    show (if key = "" then (IngestResult.authenticationError, ([] : List Effect))
      else if key ∉ env.device_api_keys then
        (IngestResult.authenticationError, [])
      else _) = _
    rw [if_neg hk0, if_neg (not_not_intro hmem), hfind]
    show (if !dev.is_active then (IngestResult.deviceInactive, ([] : List Effect))
      else _) = _
    rw [hact]
    rfl
  · rintro key dev rfl hk0 hmem hfind hact hinv
    show (if key = "" then (IngestResult.authenticationError, ([] : List Effect))
      else if key ∉ env.device_api_keys then
        (IngestResult.authenticationError, [])
      else _) = _
    rw [if_neg hk0, if_neg (not_not_intro hmem), hfind]
    show (if !dev.is_active then (IngestResult.deviceInactive, ([] : List Effect))
      else if !sensorMetricsValid md then (IngestResult.invalidPayload, [])
      else if !has_any_metric md then (IngestResult.invalidPayload, [])
      else _) = _
    rw [hact]
    rcases hinv with hval | hhas
    · rw [hval]
      rfl
    · by_cases hval : sensorMetricsValid md
      · rw [hval, hhas]
        rfl
      · rw [Bool.not_eq_true] at hval
        rw [hval]
        rfl
  · intro res effs hres hnok
    cases k with
    | none =>
        simp only [ingest] at hres
        injection hres with h1 h2
        exact h2.symm
    | some key =>
        simp only [ingest] at hres
        split at hres
        · injection hres with h1 h2
          exact h2.symm
        · split at hres
          · injection hres with h1 h2
            exact h2.symm
          · split at hres
            · injection hres with h1 h2
              exact h2.symm
            · split at hres
              · injection hres with h1 h2
                exact h2.symm
              · split at hres
                · injection hres with h1 h2
                  exact h2.symm
                · split at hres
                  · injection hres with h1 h2
                    exact h2.symm
                  · injection hres with h1 h2
                    exact absurd h1.symm (hnok _)

theorem c4_witness :
    ingest ⟨["key1"], [("esp32_01", ⟨true⟩)], true⟩ "esp32_01"
        ⟨some 90, none, none⟩ (some "key1") 0 =
      (IngestResult.invalidPayload, []) :=
  (c4_ingest_validation_failures ⟨["key1"], [("esp32_01", ⟨true⟩)], true⟩
      "esp32_01" ⟨some 90, none, none⟩ (some "key1") 0).2.2.2.1
    "key1" ⟨true⟩ rfl (by decide) (by decide) (by decide) (by decide)
    (Or.inl (by decide))

/-- Effects of every successful `ingest` call (helper for C1): exactly
one store write, one last-seen update, and one broadcast — to the
device's own topic only; the wildcard topic receives nothing. -/
theorem ingest_ok_effects (env : IngestEnv) (d : String)
    (md : SensorMetricsData) (k : Option String) (now : Int) (r : Reading)
    (effs : List Effect) (henv : env.has_ws_manager = true)
    (h : ingest env d md k now = (IngestResult.ok r, effs)) :
    effs = [Effect.storeWrite d md now, Effect.updateLastSeen d now,
      Effect.broadcast d] ∧
    (d ≠ "__all__" → Effect.broadcast "__all__" ∉ effs) := by
  have heffs : effs = [Effect.storeWrite d md now,
      Effect.updateLastSeen d now, Effect.broadcast d] := by
    cases k with
    | none =>
        simp only [ingest] at h
        injection h with h1 h2
        exact IngestResult.noConfusion h1
    | some key =>
        simp only [ingest] at h
        split at h
        · injection h with h1 h2
          exact IngestResult.noConfusion h1
        · split at h
          · injection h with h1 h2
            exact IngestResult.noConfusion h1
          · split at h
            · injection h with h1 h2
              exact IngestResult.noConfusion h1
            · split at h
              · injection h with h1 h2
                exact IngestResult.noConfusion h1
              · split at h
                · injection h with h1 h2
                  exact IngestResult.noConfusion h1
                · split at h
                  · injection h with h1 h2
                    exact IngestResult.noConfusion h1
                  · injection h with h1 h2
                    rw [← h2]
                    simp [henv]
  refine ⟨heffs, ?_⟩
  intro hne hmem
  rw [heffs] at hmem
  simp only [List.mem_cons, List.not_mem_nil, or_false] at hmem
  rcases hmem with hm | hm | hm
  · exact Effect.noConfusion hm
  · exact Effect.noConfusion hm
  · exact hne (Effect.broadcast.inj hm).symm

/-- C1: a successful ingestion for device "esp32_01" performs exactly
one store write, one last-seen update and ONE broadcast, to the
"esp32_01" topic only — `Effect.broadcast "__all__"` is not in the
trace, so `/stream/all` subscribers (subscribed to the wildcard topic
"__all__") never receive the reading, although the spec's pipeline ends
with `BroadcastToTopic(wildcard)` and the route's own documentation
says it streams all devices' readings. -/
theorem c1_no_wildcard_broadcast :
    (ingest ⟨["key1"], [("esp32_01", ⟨true⟩)], true⟩ "esp32_01"
        ⟨some 22, none, none⟩ (some "key1") 1705320000).2 =
      [Effect.storeWrite "esp32_01" ⟨some 22, none, none⟩ 1705320000,
       Effect.updateLastSeen "esp32_01" 1705320000,
       Effect.broadcast "esp32_01"] ∧
    Effect.broadcast "__all__" ∉
      (ingest ⟨["key1"], [("esp32_01", ⟨true⟩)], true⟩ "esp32_01"
        ⟨some 22, none, none⟩ (some "key1") 1705320000).2 := by
  have h := ingest_ok_effects ⟨["key1"], [("esp32_01", ⟨true⟩)], true⟩
    "esp32_01" ⟨some 22, none, none⟩ (some "key1") 1705320000
    ⟨"esp32_01", ⟨some 22, none, none⟩, 1705320000⟩
    (ingest ⟨["key1"], [("esp32_01", ⟨true⟩)], true⟩ "esp32_01"
      ⟨some 22, none, none⟩ (some "key1") 1705320000).2 rfl (by decide)
  exact ⟨h.1, h.2 (by decide)⟩


end Telemetry
